import Mathlib

/-!
Shallow embedding of the BeLLa file-upload utility's metadata store and
synchronizer (src/app/database.py) together with the slice of the web layer
that the verified properties mention (src/app.py, routes `upload_file` and
`file_view`).

The SQLite table `files (id, file_name, upload_date, readme_name, has_readme)`
is modelled as a `List FileRecord` in rowid (insertion) order.  Timestamps are
`Nat`; `datetime.now()` becomes an explicit `now` argument.  SQL statements
become list operations: `DELETE ... WHERE file_name = ?` is a filter,
`UPDATE ... WHERE file_name = ?` is a map, `SELECT * ... fetchone` is
`List.find?`, `ORDER BY upload_date DESC` is a sort by descending date.
Python truthiness of the optional `readme_name` column (`None` and `""` are
falsy) is modelled by `pyTruthy`.
-/

/-- One row of the `files` table created by `init_db` in src/app/database.py:
`id INTEGER PRIMARY KEY AUTOINCREMENT, file_name TEXT NOT NULL,
upload_date TIMESTAMP NOT NULL, readme_name TEXT,
has_readme BOOLEAN NOT NULL DEFAULT FALSE`. -/
structure FileRecord where
  id : Nat
  file_name : String
  upload_date : Nat
  readme_name : Option String
  has_readme : Bool
deriving DecidableEq, Repr

/-- Python truthiness of the optional TEXT column: `bool(None)` and `bool("")`
are `False`, any other string is `True`. -/
def pyTruthy : Option String → Bool
  | none => false
  | some s => decide (s ≠ "")

/-- The next AUTOINCREMENT id: one more than the largest id in the table
(the exact id values play no role in any verified property). -/
def nextId (store : List FileRecord) : Nat :=
  (store.foldl (fun m r => max m r.id) 0) + 1

/-- `add_file(file_name, readme_name=None)` from src/app/database.py:
`INSERT INTO files (file_name, readme_name, upload_date, has_readme)` with
`has_readme = bool(readme_name)` and `upload_date = datetime.now()`
(passed here as `now`). -/
def add_file (store : List FileRecord) (file_name : String)
    (readme_name : Option String) (now : Nat) : List FileRecord :=
  store ++ [⟨nextId store, file_name, now, readme_name, pyTruthy readme_name⟩]

/-- Comparison used by `ORDER BY upload_date DESC`: `a` may come before `b`
iff `a`'s date is at least `b`'s. -/
def dateGE (a b : FileRecord) : Prop :=
  b.upload_date ≤ a.upload_date

instance : DecidableRel dateGE := fun a b => Nat.decLe b.upload_date a.upload_date

instance : IsTotal FileRecord dateGE :=
  ⟨fun a b => Nat.le_total b.upload_date a.upload_date⟩

instance : IsTrans FileRecord dateGE :=
  ⟨fun _ _ _ h1 h2 => Nat.le_trans h2 h1⟩

/-- `get_all_files()` from src/app/database.py:
`SELECT * FROM files ORDER BY upload_date DESC`. -/
def get_all_files (store : List FileRecord) : List FileRecord :=
  List.insertionSort dateGE store

/-- `get_file_info(file_name)` from src/app/database.py:
`SELECT * FROM files WHERE file_name = ?` followed by `fetchone()`, i.e. the
first matching row in storage iteration order, or `None`. -/
def get_file_info (store : List FileRecord) (file_name : String) : Option FileRecord :=
  store.find? (fun r => decide (r.file_name = file_name))

/-- Effect on one row of `UPDATE files SET readme_name = NULL,
has_readme = FALSE WHERE file_name = ?`. -/
def clearIf (f : String) (r : FileRecord) : FileRecord :=
  if r.file_name = f then { r with readme_name := none, has_readme := false } else r

/-- The `elif readme_name and readme_name not in actual_files` test of
`sync_files`: a truthy readme name that is absent from the listing. -/
def readmeMissing (L : List String) : Option String → Bool
  | none => false
  | some s => decide (s ≠ "") && decide (s ∉ L)

/-- One iteration of the `for db_file in db_files` loop of `sync_files`:
`p` is the `(file_name, readme_name)` pair read from the snapshot; if the
file name is absent from `actual_files` every row with that name is deleted,
otherwise if the readme is truthy and absent every row with that name has its
readme reference cleared. -/
def syncStep (L : List String) (st : List FileRecord)
    (p : String × Option String) : List FileRecord :=
  if p.1 ∈ L then
    if readmeMissing L p.2 then st.map (clearIf p.1) else st
  else
    st.filter (fun r => decide (r.file_name ≠ p.1))

/-- The snapshot `SELECT file_name, readme_name FROM files` fetched before the
loop of `sync_files`. -/
def snapshot (store : List FileRecord) : List (String × Option String) :=
  store.map (fun r => (r.file_name, r.readme_name))

/-- `sync_files()` from src/app/database.py, with the directory listing
`actual_files` passed as the parameter `L`: fetch the snapshot, then run the
reconciliation loop over it, mutating the table as it goes. -/
def sync_files (store : List FileRecord) (L : List String) : List FileRecord :=
  (snapshot store).foldl (syncStep L) store

/-- The listing computation of `sync_files`:
`set(os.listdir(upload_dir)) if os.path.exists(upload_dir) else set()` —
when the upload directory does not exist the code substitutes an empty
listing instead of aborting. -/
def actual_files (dirExists : Bool) (listing : List String) : List String :=
  if dirExists then listing else []

/-- `sync_files` as actually executed: the listing is computed from the
filesystem state (`dirExists`, and the directory contents when it exists). -/
def sync_files_run (store : List FileRecord) (dirExists : Bool)
    (listing : List String) : List FileRecord :=
  sync_files store (actual_files dirExists listing)

/-- The filename guard of the POST branch of `upload_file` in src/app.py:
`if file.filename == '': flash('No selected file'); return redirect(...)` —
an empty filename is rejected before `add_file` is reached.  The later
validation failures (missing readme choice, empty readme upload or text)
likewise return without touching the store; the readme-name derivation does
not affect `file_name`, so it is passed through as `readme_name` here. -/
def upload_post (store : List FileRecord) (filename : String)
    (readme_name : Option String) (now : Nat) : List FileRecord :=
  if filename = "" then store else add_file store filename readme_name now

/-- The image-extension test of `file_view` in src/app.py:
`any(filename.lower().endswith(ext) for ext in ['.png','.jpg','.jpeg','.gif','.webp'])`. -/
def isImage (filename : String) : Bool :=
  [".png", ".jpg", ".jpeg", ".gif", ".webp"].any
    (fun ext => filename.toLower.endsWith ext)

/-- The `type` field computed by `file_view`. -/
def fileType (filename : String) : String :=
  if isImage filename then "image" else "document"

/-- Outcome of the `file_view` route: either the not-found redirect
(`flash('File not found')` plus redirect, no exception) or the rendered page
with name, derived type, readme flag and optional readme content. -/
inductive ViewResult where
  | redirectNotFound : ViewResult
  | page (name : String) (ftype : String) (has_readme : Bool)
      (readme_content : Option String) : ViewResult
deriving DecidableEq, Repr

/-- `file_view(filename)` from src/app.py.  `disk` models the upload folder:
`disk r = some c` when file `r` exists with content `c`, `none` when
`os.path.exists` is false.  The readme content is read only when
`file['has_readme'] and file_info[3]` are both truthy and the file exists;
otherwise `readme_content` stays `None`. -/
def file_view (store : List FileRecord) (disk : String → Option String)
    (filename : String) : ViewResult :=
  match get_file_info store filename with
  | none => ViewResult.redirectNotFound
  | some fi =>
      ViewResult.page fi.file_name (fileType filename) fi.has_readme
        (if fi.has_readme && pyTruthy fi.readme_name then
          match fi.readme_name with
          | some r => disk r
          | none => none
         else none)

/-- A record surviving a synchronization pass against listing `L` is named in
`L` and carries no truthy dangling readme reference. -/
def recordOk (L : List String) (r : FileRecord) : Prop :=
  r.file_name ∈ L ∧ readmeMissing L r.readme_name = false

/-- The spec's §3 invariant on stores as `add_file` creates them:
a set `has_readme` flag is backed by a truthy `readme_name`. -/
def wellFormed (store : List FileRecord) : Prop :=
  ∀ r ∈ store, r.has_readme = true → ∃ s, r.readme_name = some s ∧ s ≠ ""

example : add_file [] "a.png" none 0 = [⟨1, "a.png", 0, none, false⟩] := by decide

example : sync_files [⟨1, "x.png", 0, some "x_readme.txt", true⟩] ["x.png"]
    = [⟨1, "x.png", 0, none, false⟩] := by decide

example : sync_files [⟨1, "x.png", 0, none, false⟩, ⟨2, "y.pdf", 1, none, false⟩] ["x.png"]
    = [⟨1, "x.png", 0, none, false⟩] := by decide

/-! ## Helper lemmas about the synchronization loop -/

/-- Every record in `st` traces back to a record of `orig` with the same id,
file name and upload date, being either that record unchanged or its
readme-cleared version. -/
def traceOf (orig st : List FileRecord) : Prop :=
  ∀ r' ∈ st, ∃ r ∈ orig, r'.id = r.id ∧ r'.file_name = r.file_name ∧
    r'.upload_date = r.upload_date ∧
    (r' = r ∨ (r'.readme_name = none ∧ r'.has_readme = false))

lemma traceOf_refl (l : List FileRecord) : traceOf l l :=
  fun r hr => ⟨r, hr, rfl, rfl, rfl, Or.inl rfl⟩

lemma traceOf_syncStep {orig st : List FileRecord} {L : List String}
    (p : String × Option String) (h : traceOf orig st) :
    traceOf orig (syncStep L st p) := by
  intro r' hr'
  unfold syncStep at hr'
  split at hr'
  · split at hr'
    · obtain ⟨r0, hr0, rfl⟩ := List.mem_map.mp hr'
      obtain ⟨r, hr, hid, hfn, hdt, _⟩ := h r0 hr0
      by_cases hne : r0.file_name = p.1
      · have hcl : clearIf p.1 r0
            = { r0 with readme_name := none, has_readme := false } := by
          simp [clearIf, hne]
        rw [hcl]
        exact ⟨r, hr, hid, hfn, hdt, Or.inr ⟨rfl, rfl⟩⟩
      · have hcl : clearIf p.1 r0 = r0 := by simp [clearIf, hne]
        rw [hcl]
        exact h r0 hr0
    · exact h r' hr'
  · exact h r' (List.mem_filter.mp hr').1

lemma traceOf_foldl {orig : List FileRecord} {L : List String}
    (entries : List (String × Option String)) (st : List FileRecord)
    (h : traceOf orig st) : traceOf orig (entries.foldl (syncStep L) st) := by
  induction entries generalizing st with
  | nil => exact h
  | cons p rest ih => exact ih _ (traceOf_syncStep p h)

lemma sync_files_traceOf (store : List FileRecord) (L : List String) :
    traceOf store (sync_files store L) :=
  traceOf_foldl _ _ (traceOf_refl store)

lemma syncStep_inv {L : List String} {p : String × Option String}
    {rest : List (String × Option String)} {st : List FileRecord}
    (h : ∀ r ∈ st, recordOk L r ∨ (r.file_name, r.readme_name) ∈ p :: rest) :
    ∀ r ∈ syncStep L st p, recordOk L r ∨ (r.file_name, r.readme_name) ∈ rest := by
  intro r hr
  unfold syncStep at hr
  split at hr
  case isTrue hL =>
    split at hr
    case isTrue hm =>
      obtain ⟨r0, hr0, rfl⟩ := List.mem_map.mp hr
      by_cases hne : r0.file_name = p.1
      · left
        constructor
        · simpa [clearIf, hne] using hL
        · simp [clearIf, hne, readmeMissing]
      · have hcl : clearIf p.1 r0 = r0 := by simp [clearIf, hne]
        rw [hcl]
        rcases h r0 hr0 with hok | hmem
        · exact Or.inl hok
        · rcases List.mem_cons.mp hmem with heq | hmem'
          · exact absurd (congrArg Prod.fst heq) hne
          · exact Or.inr hmem'
    case isFalse hm =>
      rcases h r hr with hok | hmem
      · exact Or.inl hok
      · rcases List.mem_cons.mp hmem with heq | hmem'
        · left
          have h1 : r.file_name = p.1 := congrArg Prod.fst heq
          have h2 : r.readme_name = p.2 := congrArg Prod.snd heq
          simp only [Bool.not_eq_true] at hm
          exact ⟨h1 ▸ hL, h2 ▸ hm⟩
        · exact Or.inr hmem'
  case isFalse hL =>
    obtain ⟨hr', hne⟩ := List.mem_filter.mp hr
    have hne' : r.file_name ≠ p.1 := by simpa using hne
    rcases h r hr' with hok | hmem
    · exact Or.inl hok
    · rcases List.mem_cons.mp hmem with heq | hmem'
      · exact absurd (congrArg Prod.fst heq) hne'
      · exact Or.inr hmem'

lemma foldl_syncStep_ok {L : List String} (entries : List (String × Option String))
    (st : List FileRecord)
    (h : ∀ r ∈ st, recordOk L r ∨ (r.file_name, r.readme_name) ∈ entries) :
    ∀ r ∈ entries.foldl (syncStep L) st, recordOk L r := by
  induction entries generalizing st with
  | nil =>
    intro r hr
    rcases h r hr with hok | hmem
    · exact hok
    · simp at hmem
  | cons p rest ih =>
    intro r hr
    rw [List.foldl_cons] at hr
    exact ih (syncStep L st p) (syncStep_inv h) r hr

lemma sync_files_recordOk (store : List FileRecord) (L : List String) :
    ∀ r ∈ sync_files store L, recordOk L r := by
  apply foldl_syncStep_ok
  intro r hr
  exact Or.inr (List.mem_map_of_mem _ hr)

lemma syncStep_noop {L : List String} {p : String × Option String}
    (st : List FileRecord) (h1 : p.1 ∈ L) (h2 : readmeMissing L p.2 = false) :
    syncStep L st p = st := by
  unfold syncStep
  rw [if_pos h1, if_neg (by simp [h2])]

lemma foldl_syncStep_noop {L : List String} (entries : List (String × Option String))
    (st : List FileRecord)
    (h : ∀ p ∈ entries, p.1 ∈ L ∧ readmeMissing L p.2 = false) :
    entries.foldl (syncStep L) st = st := by
  induction entries generalizing st with
  | nil => rfl
  | cons p rest ih =>
    rw [List.foldl_cons, syncStep_noop st (h p (by simp)).1 (h p (by simp)).2]
    exact ih st (fun q hq => h q (List.mem_cons_of_mem p hq))

lemma sync_files_of_ok {store : List FileRecord} {L : List String}
    (h : ∀ r ∈ store, recordOk L r) : sync_files store L = store := by
  apply foldl_syncStep_noop
  intro p hp
  obtain ⟨r, hr, rfl⟩ := List.mem_map.mp hp
  exact ⟨(h r hr).1, (h r hr).2⟩

lemma readmeMissing_false_mem {L : List String} {s : String}
    (h : readmeMissing L (some s) = false) (hs : s ≠ "") : s ∈ L := by
  unfold readmeMissing at h
  simp [hs] at h
  exact h

/-! ## Helper lemmas about lookup and listing order -/

lemma find?_first {α : Type} (p : α → Bool) :
    ∀ (l : List α) (a : α), l.find? p = some a →
      ∃ l1 l2, l = l1 ++ a :: l2 ∧ ∀ x ∈ l1, p x = false := by
  intro l
  induction l with
  | nil => intro a h; simp [List.find?] at h
  | cons b l ih =>
    intro a h
    cases hb : p b with
    | true =>
      rw [List.find?_cons_of_pos l hb] at h
      obtain rfl : b = a := Option.some.inj h
      exact ⟨[], l, rfl, by simp⟩
    | false =>
      rw [List.find?_cons_of_neg l (by simp [hb])] at h
      obtain ⟨l1, l2, rfl, hl1⟩ := ih a h
      refine ⟨b :: l1, l2, rfl, ?_⟩
      intro x hx
      rcases List.mem_cons.mp hx with rfl | hx'
      · exact hb
      · exact hl1 x hx'

lemma find?_append_of_none {α : Type} (p : α → Bool) (l1 l2 : List α)
    (h : ∀ x ∈ l1, p x = false) : (l1 ++ l2).find? p = l2.find? p := by
  induction l1 with
  | nil => rfl
  | cons a l ih =>
    rw [List.cons_append, List.find?_cons_of_neg _ (by simp [h a (by simp)])]
    exact ih (fun x hx => h x (List.mem_cons_of_mem a hx))

lemma head?_eq_new {new : FileRecord} {l l' : List FileRecord}
    (hperm : l'.Perm (l ++ [new])) (hsorted : List.Sorted dateGE l')
    (hlt : ∀ r ∈ l, r.upload_date < new.upload_date) :
    l'.head? = some new := by
  cases l' with
  | nil =>
    exfalso
    have hmem : new ∈ ([] : List FileRecord) := hperm.mem_iff.mpr (by simp)
    simp at hmem
  | cons r0 rest =>
    have hr0mem : r0 ∈ l ++ [new] := hperm.mem_iff.mp (by simp)
    have hnewmem : new ∈ r0 :: rest := hperm.mem_iff.mpr (by simp)
    have hr0 : r0 = new := by
      rcases List.mem_append.mp hr0mem with hin | hin
      · exfalso
        rcases List.mem_cons.mp hnewmem with hEq | hmemRest
        · have h1 := hlt r0 hin
          rw [← hEq] at h1
          exact absurd h1 (lt_irrefl _)
        · have hge : new.upload_date ≤ r0.upload_date :=
            (List.sorted_cons.mp hsorted).1 new hmemRest
          exact absurd (Nat.lt_of_lt_of_le (hlt r0 hin) hge) (lt_irrefl _)
      · simpa using hin
    rw [hr0]
    rfl

/-! ## Helper lemmas for the duplicate-name clearing behavior -/

/-- Every record of `st` named `f` has its readme reference cleared. -/
def allCleared (f : String) (st : List FileRecord) : Prop :=
  ∀ r ∈ st, r.file_name = f → r.readme_name = none ∧ r.has_readme = false

lemma allCleared_syncStep_self {L : List String} (st : List FileRecord)
    (p : String × Option String) (hp1 : p.1 ∈ L)
    (hm : readmeMissing L p.2 = true) :
    allCleared p.1 (syncStep L st p) := by
  unfold syncStep
  rw [if_pos hp1, if_pos hm]
  intro r hr hrf
  obtain ⟨r0, hr0, rfl⟩ := List.mem_map.mp hr
  by_cases hne : r0.file_name = p.1
  · simp [clearIf, hne]
  · have hcl : clearIf p.1 r0 = r0 := by simp [clearIf, hne]
    rw [hcl] at hrf
    exact absurd hrf hne

lemma allCleared_syncStep {L : List String} {f : String}
    (st : List FileRecord) (p : String × Option String)
    (h : allCleared f st) : allCleared f (syncStep L st p) := by
  intro r hr hrf
  unfold syncStep at hr
  split at hr
  · split at hr
    · obtain ⟨r0, hr0, rfl⟩ := List.mem_map.mp hr
      by_cases hne : r0.file_name = p.1
      · simp [clearIf, hne]
      · have hcl : clearIf p.1 r0 = r0 := by simp [clearIf, hne]
        rw [hcl] at hrf ⊢
        exact h r0 hr0 hrf
    · exact h r hr hrf
  · exact h r (List.mem_filter.mp hr).1 hrf

lemma allCleared_foldl {L : List String} {f : String}
    (entries : List (String × Option String)) (st : List FileRecord)
    (h : allCleared f st) : allCleared f (entries.foldl (syncStep L) st) := by
  induction entries generalizing st with
  | nil => exact h
  | cons p rest ih => exact ih _ (allCleared_syncStep st p h)

lemma allCleared_foldl_of_mem {L : List String} {f s : String}
    (entries : List (String × Option String)) (st : List FileRecord)
    (hmem : (f, some s) ∈ entries) (hfL : f ∈ L)
    (hm : readmeMissing L (some s) = true) :
    allCleared f (entries.foldl (syncStep L) st) := by
  obtain ⟨l1, l2, rfl⟩ := List.append_of_mem hmem
  rw [List.foldl_append, List.foldl_cons]
  exact allCleared_foldl l2 _ (allCleared_syncStep_self _ (f, some s) hfL hm)

/-! ## Claim theorems -/

/-- C1: the claim states that when the upload directory cannot be listed
(the path is missing), `sync_files` aborts and leaves the store untouched.
The code instead computes `set(os.listdir(d)) if os.path.exists(d) else
set()`: a missing directory is silently treated as an empty listing, so the
pass runs against `[]` and deletes every record.  At the concrete failing
input — one record for `"a.png"`, directory missing — the store is emptied,
not left untouched. -/
theorem sync_files_run_missing_dir_deletes_all :
    sync_files_run [(⟨1, "a.png", 0, none, false⟩ : FileRecord)] false ["a.png"] = []
    ∧ sync_files_run [(⟨1, "a.png", 0, none, false⟩ : FileRecord)] false ["a.png"]
        ≠ [(⟨1, "a.png", 0, none, false⟩ : FileRecord)] := by
  constructor
  · rfl
  · decide

/-- C3: `sync_files` is idempotent — for every store state and every
directory listing `L`, a second pass with the same listing leaves the store
produced by the first pass unchanged. -/
theorem sync_files_idempotent (store : List FileRecord) (L : List String) :
    sync_files (sync_files store L) L = sync_files store L :=
  sync_files_of_ok (sync_files_recordOk store L)

/-- C7: every record surviving a synchronization pass keeps its `id`,
`file_name` and `upload_date`; it is either an original record unchanged or
an original record whose only mutated fields are `readme_name` (set to
absent) and `has_readme` (set to false). -/
theorem sync_files_frame (store : List FileRecord) (L : List String) :
    ∀ r' ∈ sync_files store L, ∃ r ∈ store,
      r'.id = r.id ∧ r'.file_name = r.file_name ∧ r'.upload_date = r.upload_date ∧
      (r' = r ∨ (r'.readme_name = none ∧ r'.has_readme = false)) :=
  sync_files_traceOf store L

/-- Witness for C7: the record for `"x.png"` whose readme is gone from the
listing survives the pass with id, name and date intact and only its readme
fields cleared. -/
theorem sync_files_frame_witness :
    (⟨1, "x.png", 0, none, false⟩ : FileRecord)
      ∈ sync_files [(⟨1, "x.png", 0, some "gone.txt", true⟩ : FileRecord)] ["x.png"]
    ∧ ∃ r ∈ [(⟨1, "x.png", 0, some "gone.txt", true⟩ : FileRecord)],
      (⟨1, "x.png", 0, none, false⟩ : FileRecord).id = r.id
      ∧ (⟨1, "x.png", 0, none, false⟩ : FileRecord).file_name = r.file_name
      ∧ (⟨1, "x.png", 0, none, false⟩ : FileRecord).upload_date = r.upload_date
      ∧ ((⟨1, "x.png", 0, none, false⟩ : FileRecord) = r
          ∨ ((⟨1, "x.png", 0, none, false⟩ : FileRecord).readme_name = none
              ∧ (⟨1, "x.png", 0, none, false⟩ : FileRecord).has_readme = false)) :=
  ⟨by decide,
    sync_files_frame [(⟨1, "x.png", 0, some "gone.txt", true⟩ : FileRecord)] ["x.png"]
      ⟨1, "x.png", 0, none, false⟩ (by decide)⟩

/-- C9: when some record named `f` (with `f` in the listing) carries a truthy
readme name absent from the listing, the pass clears the readme reference of
every record named `f` — the `UPDATE ... WHERE file_name = ?` keys on the
shared file name, so records whose own readme is present are cleared too. -/
theorem sync_files_clears_duplicates (store : List FileRecord) (L : List String)
    (r1 : FileRecord) (f s : String) (h1 : r1 ∈ store)
    (hf : r1.file_name = f) (hrn : r1.readme_name = some s)
    (hfL : f ∈ L) (hs : s ≠ "") (hsL : s ∉ L) :
    ∀ r ∈ sync_files store L, r.file_name = f →
      r.readme_name = none ∧ r.has_readme = false := by
  have hmem : (f, some s) ∈ snapshot store := by
    rw [← hf, ← hrn]
    exact List.mem_map_of_mem _ h1
  have hm : readmeMissing L (some s) = true := by simp [readmeMissing, hs, hsL]
  exact allCleared_foldl_of_mem _ _ hmem hfL hm

/-- Witness for C9: two records share the name `"x.png"`; the first one's
readme `"r1.txt"` is missing from the listing while the second one's readme
`"r2.txt"` is present, yet the second record also ends up cleared. -/
theorem sync_files_clears_duplicates_witness :
    (⟨2, "x.png", 1, none, false⟩ : FileRecord)
      ∈ sync_files
        [(⟨1, "x.png", 0, some "r1.txt", true⟩ : FileRecord),
         (⟨2, "x.png", 1, some "r2.txt", true⟩ : FileRecord)]
        ["x.png", "r2.txt"]
    ∧ ((⟨2, "x.png", 1, none, false⟩ : FileRecord).readme_name = none
        ∧ (⟨2, "x.png", 1, none, false⟩ : FileRecord).has_readme = false) :=
  ⟨by decide,
    sync_files_clears_duplicates
      [(⟨1, "x.png", 0, some "r1.txt", true⟩ : FileRecord),
       (⟨2, "x.png", 1, some "r2.txt", true⟩ : FileRecord)]
      ["x.png", "r2.txt"]
      ⟨1, "x.png", 0, some "r1.txt", true⟩ "x.png" "r1.txt"
      (by decide) rfl rfl (by decide) (by decide) (by decide)
      ⟨2, "x.png", 1, none, false⟩ (by decide) rfl⟩

/-- C2: starting from a store satisfying the spec's derived-flag invariant
(`has_readme` set only when `readme_name` is a truthy string, exactly as
`add_file` creates records), after `sync_files` with listing `L` every
remaining record's `file_name` is in `L`, and every remaining record with
`has_readme = true` has its `readme_name` in `L`. -/
theorem sync_files_post_invariants (store : List FileRecord) (L : List String)
    (hwf : wellFormed store) :
    ∀ r ∈ sync_files store L, r.file_name ∈ L ∧
      (r.has_readme = true → ∃ s, r.readme_name = some s ∧ s ∈ L) := by
  intro r hr
  have hok := sync_files_recordOk store L r hr
  refine ⟨hok.1, fun hhr => ?_⟩
  obtain ⟨r0, hr0, _, _, _, hor⟩ := sync_files_traceOf store L r hr
  rcases hor with rfl | ⟨_, hfalse⟩
  · obtain ⟨s, hs, hs0⟩ := hwf r hr0 hhr
    have hok2 : readmeMissing L (some s) = false := hs ▸ hok.2
    exact ⟨s, hs, readmeMissing_false_mem hok2 hs0⟩
  · rw [hhr] at hfalse
    exact absurd hfalse (by decide)

/-- Witness for C2: a well-formed single-record store synchronized against a
listing containing both the file and its readme keeps the record, whose name
and readme name are both in the listing. -/
theorem sync_files_post_invariants_witness :
    wellFormed [(⟨1, "x.png", 0, some "x_readme.txt", true⟩ : FileRecord)]
    ∧ ((⟨1, "x.png", 0, some "x_readme.txt", true⟩ : FileRecord)
        ∈ sync_files [(⟨1, "x.png", 0, some "x_readme.txt", true⟩ : FileRecord)]
            ["x.png", "x_readme.txt"]
      ∧ ("x.png" : String) ∈ ["x.png", "x_readme.txt"]
      ∧ ∃ s, (⟨1, "x.png", 0, some "x_readme.txt", true⟩ : FileRecord).readme_name
          = some s ∧ s ∈ ["x.png", "x_readme.txt"]) := by
  have hwf : wellFormed [(⟨1, "x.png", 0, some "x_readme.txt", true⟩ : FileRecord)] := by
    intro r hr _
    rw [List.mem_singleton] at hr
    subst hr
    exact ⟨"x_readme.txt", rfl, by decide⟩
  have hmem : (⟨1, "x.png", 0, some "x_readme.txt", true⟩ : FileRecord)
      ∈ sync_files [(⟨1, "x.png", 0, some "x_readme.txt", true⟩ : FileRecord)]
          ["x.png", "x_readme.txt"] := by decide
  have h := sync_files_post_invariants
    [(⟨1, "x.png", 0, some "x_readme.txt", true⟩ : FileRecord)]
    ["x.png", "x_readme.txt"] hwf _ hmem
  exact ⟨hwf, hmem, h.1, h.2 rfl⟩

/-- C4: adding a record for `"b.png"` with readme `"b_readme.txt"` to a store
holding no record named `"b.png"`, then looking the name up, returns a record
with `has_readme = true` and `readme_name = some "b_readme.txt"`. -/
theorem add_file_then_get_file_info (store : List FileRecord) (now : Nat)
    (h : ∀ r ∈ store, r.file_name ≠ "b.png") :
    ∃ rec, get_file_info (add_file store "b.png" (some "b_readme.txt") now) "b.png"
        = some rec
      ∧ rec.has_readme = true ∧ rec.readme_name = some "b_readme.txt" := by
  refine ⟨⟨nextId store, "b.png", now, some "b_readme.txt", true⟩, ?_, rfl, rfl⟩
  show (store ++ [(⟨nextId store, "b.png", now, some "b_readme.txt",
      pyTruthy (some "b_readme.txt")⟩ : FileRecord)]).find?
      (fun r => decide (r.file_name = "b.png")) = _
  rw [find?_append_of_none _ store _ (fun r hr => by simp [h r hr])]
  rfl

/-- Witness for C4: on a store holding one unrelated record, the add-then-get
round trip surfaces the stored readme. -/
theorem add_file_then_get_file_info_witness :
    (∀ r ∈ [(⟨1, "a.png", 0, none, false⟩ : FileRecord)], r.file_name ≠ "b.png")
    ∧ ∃ rec, get_file_info
        (add_file [(⟨1, "a.png", 0, none, false⟩ : FileRecord)] "b.png"
          (some "b_readme.txt") 1) "b.png" = some rec
      ∧ rec.has_readme = true ∧ rec.readme_name = some "b_readme.txt" :=
  ⟨by decide,
    add_file_then_get_file_info [(⟨1, "a.png", 0, none, false⟩ : FileRecord)] 1
      (by decide)⟩

/-- C5: `get_all_files` returns a permutation of the store sorted by
`upload_date` descending; and when a record for `"a.png"` is added with a
timestamp strictly later than every existing record's (`datetime.now()` on a
forward-moving clock), the first element of the listing is that record, with
`has_readme = false`. -/
theorem get_all_files_order_and_head (store : List FileRecord) (now : Nat)
    (h : ∀ r ∈ store, r.upload_date < now) :
    (∀ s : List FileRecord,
        List.Sorted dateGE (get_all_files s) ∧ (get_all_files s).Perm s)
    ∧ ∃ rec, (get_all_files (add_file store "a.png" none now)).head? = some rec
        ∧ rec.file_name = "a.png" ∧ rec.has_readme = false := by
  refine ⟨fun s => ⟨List.sorted_insertionSort dateGE s,
    List.perm_insertionSort dateGE s⟩, ?_⟩
  refine ⟨⟨nextId store, "a.png", now, none, false⟩, ?_, rfl, rfl⟩
  exact head?_eq_new (l := store)
    (List.perm_insertionSort dateGE (add_file store "a.png" none now))
    (List.sorted_insertionSort dateGE (add_file store "a.png" none now))
    h

/-- Witness for C5: a store with one older record, then `add_file "a.png"` at
a later timestamp puts `"a.png"` (without readme) at the head of the listing. -/
theorem get_all_files_order_and_head_witness :
    (∀ r ∈ [(⟨1, "old.png", 0, none, false⟩ : FileRecord)], r.upload_date < 5)
    ∧ ∃ rec, (get_all_files
        (add_file [(⟨1, "old.png", 0, none, false⟩ : FileRecord)] "a.png" none 5)).head?
          = some rec
        ∧ rec.file_name = "a.png" ∧ rec.has_readme = false :=
  ⟨by decide,
    (get_all_files_order_and_head [(⟨1, "old.png", 0, none, false⟩ : FileRecord)] 5
      (by decide)).2⟩

/-- C6: when no record matches, `get_file_info` returns `none` and
`file_view` surfaces the not-found redirect (a normal absent result, not an
exception — both functions are total); when a record is returned it is the
first match in storage iteration order, and the route renders a page, an
outcome distinct from the not-found one even if the record has no readme. -/
theorem get_file_info_first_match_or_absent (store : List FileRecord)
    (disk : String → Option String) (name : String) :
    ((∀ r ∈ store, r.file_name ≠ name) →
        get_file_info store name = none
        ∧ file_view store disk name = ViewResult.redirectNotFound)
    ∧ ∀ rec, get_file_info store name = some rec →
        rec.file_name = name
        ∧ (∃ l1 l2, store = l1 ++ rec :: l2 ∧ ∀ r ∈ l1, r.file_name ≠ name)
        ∧ file_view store disk name ≠ ViewResult.redirectNotFound := by
  constructor
  · intro hnone
    have h0 : get_file_info store name = none := by
      unfold get_file_info
      rw [List.find?_eq_none]
      intro x hx
      simp [hnone x hx]
    refine ⟨h0, ?_⟩
    unfold file_view
    rw [h0]
  · intro rec hrec
    have hrec' : store.find? (fun r => decide (r.file_name = name)) = some rec := hrec
    have hp := List.find?_some hrec'
    refine ⟨by simpa using hp, ?_, ?_⟩
    · obtain ⟨l1, l2, heq, hl1⟩ := find?_first _ store rec hrec'
      exact ⟨l1, l2, heq, fun r hr => by simpa using hl1 r hr⟩
    · unfold file_view
      rw [hrec]
      intro hcontra
      exact ViewResult.noConfusion hcontra

/-- Witness for C6: looking up a name absent from the store yields `none`
from the store and the not-found redirect from the route. -/
theorem get_file_info_first_match_or_absent_witness :
    get_file_info [(⟨1, "a.png", 0, none, false⟩ : FileRecord)] "zzz" = none
    ∧ file_view [(⟨1, "a.png", 0, none, false⟩ : FileRecord)] (fun _ => none) "zzz"
        = ViewResult.redirectNotFound :=
  (get_file_info_first_match_or_absent [(⟨1, "a.png", 0, none, false⟩ : FileRecord)]
    (fun _ => none) "zzz").1 (by decide)

/-- C8 counterexample: `add_file` performs no validation, so calling it with
the empty string creates a record whose `file_name` is empty — the claim
that `addRecord` never creates such a record fails on the store layer. -/
theorem add_file_empty_name_possible :
    ∃ r ∈ add_file [] "" none 0, r.file_name = "" := by decide

/-- C8 amended: `add_file` itself inserts whatever name it is given, but the
empty name is rejected upstream — the upload route's guard
(`if file.filename == ''`) returns without inserting — and the non-empty
`file_name` invariant, once it holds, is preserved by the upload POST path
(for any submitted filename) and by `sync_files`. -/
theorem fileName_nonempty_preserved (store : List FileRecord) (L : List String)
    (filename : String) (rn : Option String) (now : Nat)
    (h : ∀ r ∈ store, r.file_name ≠ "") :
    (∀ r ∈ upload_post store filename rn now, r.file_name ≠ "")
    ∧ (∀ r ∈ sync_files store L, r.file_name ≠ "") := by
  constructor
  · intro r hr
    unfold upload_post at hr
    by_cases hf : filename = ""
    · rw [if_pos hf] at hr
      exact h r hr
    · rw [if_neg hf] at hr
      unfold add_file at hr
      rcases List.mem_append.mp hr with hin | hin
      · exact h r hin
      · rw [List.mem_singleton] at hin
        rw [hin]
        exact hf
  · intro r hr
    obtain ⟨r0, hr0, _, hfn, _, _⟩ := sync_files_traceOf store L r hr
    rw [hfn]
    exact h r0 hr0

/-- Witness for C8: a store with one non-empty-named record keeps the
invariant through an upload POST with an empty filename (rejected by the
guard) and through a synchronization pass. -/
theorem fileName_nonempty_preserved_witness :
    (∀ r ∈ [(⟨1, "a.png", 0, none, false⟩ : FileRecord)], r.file_name ≠ "")
    ∧ (∀ r ∈ upload_post [(⟨1, "a.png", 0, none, false⟩ : FileRecord)] "" none 1,
        r.file_name ≠ "")
    ∧ (∀ r ∈ sync_files [(⟨1, "a.png", 0, none, false⟩ : FileRecord)] ["a.png"],
        r.file_name ≠ "") :=
  ⟨by decide,
    fileName_nonempty_preserved [(⟨1, "a.png", 0, none, false⟩ : FileRecord)]
      ["a.png"] "" none 1 (by decide)⟩

/-- C10: when the record is found with `has_readme = true` but its referenced
readme file is absent from disk (`os.path.exists` false, modelled by
`disk rn = none`), `file_view` still renders the page for the record with
`readme_content` absent; no error path exists for the missing file. -/
theorem file_view_dangling_readme_found (store : List FileRecord)
    (disk : String → Option String) (name rn : String) (fi : FileRecord)
    (hfind : get_file_info store name = some fi)
    (hhr : fi.has_readme = true) (hrn : fi.readme_name = some rn)
    (hdisk : disk rn = none) :
    file_view store disk name
      = ViewResult.page fi.file_name (fileType name) true none := by
  unfold file_view
  rw [hfind]
  simp only [hhr, hrn, pyTruthy, Bool.true_and]
  by_cases h0 : rn = ""
  · simp [h0]
  · simp [h0, hdisk]

/-- Witness for C10: the single record for `"a.png"` claims readme
`"gone.txt"`, the disk has no files at all, and the view still renders the
page with an absent readme content. -/
theorem file_view_dangling_readme_found_witness :
    get_file_info [(⟨1, "a.png", 0, some "gone.txt", true⟩ : FileRecord)] "a.png"
      = some ⟨1, "a.png", 0, some "gone.txt", true⟩
    ∧ file_view [(⟨1, "a.png", 0, some "gone.txt", true⟩ : FileRecord)]
        (fun _ => none) "a.png"
      = ViewResult.page
          (⟨1, "a.png", 0, some "gone.txt", true⟩ : FileRecord).file_name
          (fileType "a.png") true none :=
  ⟨by decide,
    file_view_dangling_readme_found _ _ "a.png" "gone.txt" _ (by decide) rfl rfl rfl⟩
